import Mathlib

/-!
Shallow embedding of `src/fix_hebrew.py`, a heuristic classifier and fixer
for direction-reversed Hebrew strings in a JSON collection of quiz
questions, together with proofs about the spec's claims.

Python strings are modelled as `List Char` (Unicode code points in logical
order); Hebrew literals are written character by character so the logical
order is explicit even though right-to-left display reorders them visually.
Python dicts are modelled as ordered association lists (insertion order is
observable in Python and the spec talks about key order); JSON values by
the inductive `Val`.  Fallible Python code (KeyError / TypeError /
AttributeError) is modelled with `Option`: `none` means the exception
aborts the run.
-/

namespace FixHebrew

/-- A Python string: its code points in logical order. -/
abbrev Str := List Char

/-- `reverse_hebrew(text)`: `text[::-1]`, full character-order reversal. -/
def reverse_hebrew (s : Str) : Str := s.reverse

/-- The `reversed_patterns` list of `is_reversed_hebrew`, in source order.
In source display: `' המ '`, `' המ,'`, `',המ '`, `'המ?'`, `' ימ '`,
`' ךיא '`, `' םאה '`, `'ןיחבמ'`, `'תניפס'`, `'תישרפמ'`, `'ךמוטרח'`, `'הגלפה'`. -/
def reversed_patterns : List Str :=
  [ [' ', 'ה', 'מ', ' ']
  , [' ', 'ה', 'מ', ',']
  , [',', 'ה', 'מ', ' ']
  , ['ה', 'מ', '?']
  , [' ', 'י', 'מ', ' ']
  , [' ', 'ך', 'י', 'א', ' ']
  , [' ', 'ם', 'א', 'ה', ' ']
  , ['ן', 'י', 'ח', 'ב', 'מ']
  , ['ת', 'נ', 'י', 'פ', 'ס']
  , ['ת', 'י', 'ש', 'ר', 'פ', 'מ']
  , ['ך', 'מ', 'ו', 'ט', 'ר', 'ח']
  , ['ה', 'ג', 'ל', 'פ', 'ה'] ]

/-- The `correct_patterns` list of `is_reversed_hebrew`, in source order.
In source display: `'מה '`, `'מי '`, `'איך '`, `'האם '`, `'הינך'`,
`'בעת '`, `'כאשר'`. -/
def correct_patterns : List Str :=
  [ ['מ', 'ה', ' ']
  , ['מ', 'י', ' ']
  , ['א', 'י', 'ך', ' ']
  , ['ה', 'א', 'ם', ' ']
  , ['ה', 'י', 'נ', 'ך']
  , ['ב', 'ע', 'ת', ' ']
  , ['כ', 'א', 'ש', 'ר'] ]

/-- Python `pattern in text`: substring containment. -/
def containsSub (p t : Str) : Bool := decide (p <:+: t)

/-- The reversed form of "during", the three letters of the regex
`r'תעב[?.!]?$'` before the optional punctuation class. -/
def during_reversed : Str := ['ת', 'ע', 'ב']

/-- The characters Python `str.isspace()` accepts — exactly the set
`str.strip()` removes: U+0009–U+000D, U+001C–U+0020, U+0085, U+00A0,
U+1680, U+2000–U+200A, U+2028, U+2029, U+202F, U+205F, U+3000. -/
def pyIsSpace (c : Char) : Bool :=
  (0x9 ≤ c.toNat && c.toNat ≤ 0xd) ||
  (0x1c ≤ c.toNat && c.toNat ≤ 0x20) ||
  c.toNat == 0x85 || c.toNat == 0xa0 || c.toNat == 0x1680 ||
  (0x2000 ≤ c.toNat && c.toNat ≤ 0x200a) ||
  c.toNat == 0x2028 || c.toNat == 0x2029 ||
  c.toNat == 0x202f || c.toNat == 0x205f || c.toNat == 0x3000

/-- Python `text.strip()`: drop leading and trailing whitespace, for the
full Unicode whitespace set of `str.strip()`. -/
def pyStrip (s : Str) : Str :=
  ((s.dropWhile pyIsSpace).reverse.dropWhile pyIsSpace).reverse

/-- `re.search(r'תעב[?.!]?$', t)`: `t` ends with the reversed "during",
optionally followed by exactly one of `?`, `.`, `!`. -/
def trailing_during (t : Str) : Bool :=
  decide (during_reversed <:+ t) ||
  decide ((during_reversed ++ ['?']) <:+ t) ||
  decide ((during_reversed ++ ['.']) <:+ t) ||
  decide ((during_reversed ++ ['!']) <:+ t)

/-- `is_reversed_hebrew(text)`: empty check, then the correct-pattern loop,
then the reversed-pattern loop, then the anchored trailing regex on the
stripped text, else `False`. -/
def is_reversed_hebrew (text : Str) : Bool :=
  if text.isEmpty then false
  else if correct_patterns.any (fun p => containsSub p text) then false
  else if reversed_patterns.any (fun p => containsSub p text) then true
  else if trailing_during (pyStrip text) then true
  else false

/-- A JSON-ish Python value: a string, a list, or a number. -/
inductive Val where
  | vstr : Str → Val
  | vlist : List Val → Val
  | vnum : Int → Val

/-- Python `==` between a pattern string and a dynamic value: true exactly
for an equal string. -/
def eqStrVal (p : Str) : Val → Bool
  | Val.vstr s => s == p
  | _ => false

/-- A record ("question" dict): an insertion-ordered association list. -/
abbrev Record := List (String × Val)

/-- Python `d[k]` as a total lookup: `none` models a `KeyError`. -/
def lookupKey (q : Record) (k : String) : Option Val :=
  match q with
  | [] => none
  | (k', v) :: rest => if k' = k then some v else lookupKey rest k

/-- Python `d[k] = v`: replace the value at the first occurrence of `k`,
keeping key order; append if the key is absent (a dict assignment to a
fresh key inserts it at the end). -/
def setKey (q : Record) (k : String) (v : Val) : Record :=
  match q with
  | [] => [(k, v)]
  | (k', v') :: rest => if k' = k then (k, v) :: rest else (k', v') :: setKey rest k v

/-- `reverse_hebrew` applied to a dynamic value: `x[::-1]` reverses a
string or a list and raises `TypeError` on a number. -/
def reverseVal : Val → Option Val
  | Val.vstr s => some (Val.vstr s.reverse)
  | Val.vlist l => some (Val.vlist l.reverse)
  | Val.vnum _ => none

/-- `[reverse_hebrew(opt) for opt in options]`: iterating a list reverses
each element (failing on a numeric element); iterating a string yields its
one-character strings, each unchanged by reversal; iterating a number
raises `TypeError`. -/
def fix_options : Val → Option Val
  | Val.vlist l => (l.mapM reverseVal).map Val.vlist
  | Val.vstr s => some (Val.vlist (s.map (fun c => Val.vstr [c])))
  | Val.vnum _ => none

/-- `fix_question(question)`: copy the dict, overwrite `text` with its
reversal, overwrite `options` element-wise, and overwrite `category` only
when present; evaluation order (and hence which error fires first) follows
the source. -/
def fix_question (q : Record) : Option Record :=
  match lookupKey q "text" with
  | none => none
  | some tv =>
    match reverseVal tv with
    | none => none
    | some tv' =>
      match lookupKey q "options" with
      | none => none
      | some ov =>
        match fix_options ov with
        | none => none
        | some ov' =>
          let f2 := setKey (setKey q "text" tv') "options" ov'
          match lookupKey q "category" with
          | none => some f2
          | some cv =>
            match reverseVal cv with
            | none => none
            | some cv' => some (setKey f2 "category" cv')

/-- `is_reversed_hebrew(q.get('text', ''))` in the driver, on a dynamic
value.  A missing `text` yields the empty-string default.  A string is
classified by `is_reversed_hebrew`.  Python falsiness short-circuits to
`False` for `0`, `[]`.  A non-zero number raises `TypeError` at the first
`pattern in text` test.  For a non-empty list, `pattern in text` is an
element-membership test, and when no pattern is an element the call
reaches `text.strip()` and raises `AttributeError`. -/
def classifyText : Record → Option Bool
  | q =>
    match (lookupKey q "text").getD (Val.vstr []) with
    | Val.vstr s => some (is_reversed_hebrew s)
    | Val.vnum n => if n = 0 then some false else none
    | Val.vlist l =>
      if l.isEmpty then some false
      else if correct_patterns.any (fun p => l.any (eqStrVal p)) then
        some false
      else if reversed_patterns.any (fun p => l.any (eqStrVal p)) then
        some true
      else none

/-- The loop of `main`: for each record, classify; if reversed, append the
fixed record, bump the count and append `q['id']`; else append the record
unchanged.  Any exception aborts the run (`none`): nothing is written. -/
def run_questions : List Record → Option (List Record × Nat × List Val)
  | [] => some ([], 0, [])
  | q :: rest =>
    match classifyText q with
    | none => none
    | some true =>
      match fix_question q with
      | none => none
      | some fq =>
        match lookupKey q "id" with
        | none => none
        | some idv =>
          match run_questions rest with
          | none => none
          | some (out, n, ids) => some (fq :: out, n + 1, idv :: ids)
    | some false =>
      match run_questions rest with
      | none => none
      | some (out, n, ids) => some (q :: out, n, ids)

/-- The summary line `f"Fixed {fixed_count} questions out of {len(questions)}"`. -/
def summary_line (fixedCount total : Nat) : String :=
  "Fixed " ++ toString fixedCount ++ " questions out of " ++ toString total

/-! Concrete data used in scenarios, counterexamples and witnesses. -/

/-- The spec scenario text of record 1, `" המ תלוכי?"`, in logical order. -/
def scenText1 : Str := [' ', 'ה', 'מ', ' ', 'ת', 'ל', 'ו', 'כ', 'י', '?']

/-- The spec scenario text of record 2, `"מה התלוכי?"`, in logical order. -/
def scenText2 : Str := ['מ', 'ה', ' ', 'ה', 'ת', 'ל', 'ו', 'כ', 'י', '?']

/-- A palindromic text `",המ  מה,"`: it contains the reversed marker
`',המ '` and no correct marker, and it equals its own reversal. -/
def palinText : Str := [',', 'ה', 'מ', ' ', ' ', 'מ', 'ה', ',']

/-- Scenario record 1 carrying an `options` field. -/
def scenRec1 : Record := [("id", Val.vnum 1), ("text", Val.vstr scenText1), ("options", Val.vlist [])]

/-- Scenario record 2 carrying an `options` field. -/
def scenRec2 : Record := [("id", Val.vnum 2), ("text", Val.vstr scenText2), ("options", Val.vlist [])]

/-- `fix_question scenRec1`, spelled out. -/
def scenRec1Fixed : Record :=
  [("id", Val.vnum 1), ("text", Val.vstr scenText1.reverse), ("options", Val.vlist [])]

/-- The spec scenario record 1 exactly as written: only `id` and `text`. -/
def litRec1 : Record := [("id", Val.vnum 1), ("text", Val.vstr scenText1)]

/-- The spec scenario record 2 exactly as written: only `id` and `text`. -/
def litRec2 : Record := [("id", Val.vnum 2), ("text", Val.vstr scenText2)]

/-- A text containing a correct marker and a reversed marker. -/
def bothMarkersText : Str := ['מ', 'ה', ' ', ' ', 'ה', 'מ', ' ']

/-- A record whose `text` is the palindrome and whose other mandatory
field is present, so that `fix_question` succeeds on it. -/
def palinRec : Record := [("text", Val.vstr palinText), ("options", Val.vlist [])]

/-- A record flagged by the classifier but lacking `options`. -/
def noOptionsRec : Record := [("text", Val.vstr palinText)]

/-- The five reversed-pattern markers whose character reversal contains a
correct-pattern marker: the reversed question words `' המ '`, `' המ,'`,
`' ימ '`, `' ךיא '`, `' םאה '`. -/
def mirror_markers : List Str :=
  [ [' ', 'ה', 'מ', ' ']
  , [' ', 'ה', 'מ', ',']
  , [' ', 'י', 'מ', ' ']
  , [' ', 'ך', 'י', 'א', ' ']
  , [' ', 'ם', 'א', 'ה', ' '] ]

/-- A record with an extra unrelated key, a `category`, and well-typed
mandatory fields. -/
def framedRec : Record :=
  [("id", Val.vnum 7), ("text", Val.vstr ['a', 'b']),
   ("options", Val.vlist [Val.vstr ['c']]), ("category", Val.vstr ['d', 'e']),
   ("note", Val.vnum 3)]

/-- `fix_question framedRec`, spelled out. -/
def framedRecFixed : Record :=
  [("id", Val.vnum 7), ("text", Val.vstr ['b', 'a']),
   ("options", Val.vlist [Val.vstr ['c']]), ("category", Val.vstr ['e', 'd']),
   ("note", Val.vnum 3)]

/-- A record with no `text` field at all. -/
def noTextRec : Record := [("id", Val.vnum 5), ("options", Val.vlist [])]

/-- A text with no Hebrew at all, matching no pattern. -/
def latinText : Str := ['a', 'b', 'c']

/-- A text whose only evidence is the anchored trailing pattern: it ends
with the reversed "during" `'תעב'` plus `'?'` and contains no plain
marker. -/
def duringText : Str := ['א', ' ', 'ת', 'ע', 'ב', '?']

/-! Lemmas about the association-list dict model. -/

theorem lookupKey_setKey_self (q : Record) (k : String) (v : Val) :
    lookupKey (setKey q k v) k = some v := by
  induction q with
  | nil => simp [setKey, lookupKey]
  | cons a rest ih =>
    by_cases h : a.1 = k
    · simp [setKey, lookupKey, h]
    · simp [setKey, lookupKey, h, ih]

theorem lookupKey_setKey_ne (q : Record) {k k' : String} (v : Val) (h : k' ≠ k) :
    lookupKey (setKey q k v) k' = lookupKey q k' := by
  have hne : ¬k = k' := fun hh => h hh.symm
  induction q with
  | nil => simp [setKey, lookupKey, hne]
  | cons a rest ih =>
    by_cases hk : a.1 = k
    · simp [setKey, lookupKey, hk, hne]
    · by_cases hk2 : a.1 = k'
      · simp [setKey, lookupKey, hk, hk2, h]
      · simp [setKey, lookupKey, hk, hk2, ih]

theorem mem_keys_of_lookupKey {q : Record} {k : String} {v : Val}
    (h : lookupKey q k = some v) : k ∈ q.map Prod.fst := by
  induction q with
  | nil => simp [lookupKey] at h
  | cons a rest ih =>
    by_cases hk : a.1 = k
    · simp [hk]
    · simp only [lookupKey, if_neg hk] at h
      simp [ih h]

theorem keys_setKey_of_mem {q : Record} {k : String} (v : Val)
    (h : k ∈ q.map Prod.fst) : (setKey q k v).map Prod.fst = q.map Prod.fst := by
  induction q with
  | nil => simp at h
  | cons a rest ih =>
    by_cases hk : a.1 = k
    · simp [setKey, hk]
    · have hmem : k ∈ rest.map Prod.fst := by
        rcases List.mem_map.mp h with ⟨x, hx, hfst⟩
        rcases List.mem_cons.mp hx with rfl | hx'
        · exact absurd hfst hk
        · exact List.mem_map.mpr ⟨x, hx', hfst⟩
      simp [setKey, hk, ih hmem]

/-! Lemmas about the classifier. -/

theorem correct_patterns_ne_nil {p : Str} (h : p ∈ correct_patterns) : p ≠ [] := by
  fin_cases h <;> simp

theorem is_reversed_of_correct {p text : Str} (hmem : p ∈ correct_patterns)
    (hinf : p <:+: text) : is_reversed_hebrew text = false := by
  have hne : p ≠ [] := correct_patterns_ne_nil hmem
  have htext : text ≠ [] := by
    rintro rfl
    exact hne (List.eq_nil_of_infix_nil hinf)
  have hempty : text.isEmpty = false := by
    cases text with
    | nil => exact absurd rfl htext
    | cons a l => rfl
  have hany : correct_patterns.any (fun p => containsSub p text) = true :=
    List.any_eq_true.mpr ⟨p, hmem, by simpa [containsSub] using hinf⟩
  simp [is_reversed_hebrew, hempty, hany]

theorem is_reversed_of_reversed {p text : Str}
    (hnc : ∀ c ∈ correct_patterns, ¬c <:+: text)
    (hmem : p ∈ reversed_patterns) (hinf : p <:+: text) :
    is_reversed_hebrew text = true := by
  have hne : p ≠ [] := by fin_cases hmem <;> simp
  have htext : text ≠ [] := by
    rintro rfl
    exact hne (List.eq_nil_of_infix_nil hinf)
  have hempty : text.isEmpty = false := by
    cases text with
    | nil => exact absurd rfl htext
    | cons a l => rfl
  have hanyc : correct_patterns.any (fun p => containsSub p text) = false := by
    rw [List.any_eq_false]
    intro c hc
    simpa [containsSub] using hnc c hc
  have hanyr : reversed_patterns.any (fun p => containsSub p text) = true :=
    List.any_eq_true.mpr ⟨p, hmem, by simpa [containsSub] using hinf⟩
  simp [is_reversed_hebrew, hempty, hanyc, hanyr]

theorem mirror_markers_sub_reversed {p : Str} (h : p ∈ mirror_markers) :
    p ∈ reversed_patterns := by
  fin_cases h <;> decide

theorem mirror_markers_reverse_correct {p : Str} (h : p ∈ mirror_markers) :
    ∃ c ∈ correct_patterns, c <:+: p.reverse := by
  fin_cases h <;> decide

/-! Inversion and frame lemmas for `fix_question`. -/

theorem fix_question_inv {q q' : Record} (h : fix_question q = some q') :
    ∃ tv tv' ov ov', lookupKey q "text" = some tv ∧ reverseVal tv = some tv' ∧
      lookupKey q "options" = some ov ∧ fix_options ov = some ov' ∧
      ((lookupKey q "category" = none ∧
          q' = setKey (setKey q "text" tv') "options" ov') ∨
        (∃ cv cv', lookupKey q "category" = some cv ∧ reverseVal cv = some cv' ∧
          q' = setKey (setKey (setKey q "text" tv') "options" ov') "category" cv')) := by
  unfold fix_question at h
  cases htv : lookupKey q "text" with
  | none => simp only [htv] at h; exact Option.noConfusion h
  | some tv =>
    simp only [htv] at h
    cases htv' : reverseVal tv with
    | none => simp only [htv'] at h; exact Option.noConfusion h
    | some tv' =>
      simp only [htv'] at h
      cases hov : lookupKey q "options" with
      | none => simp only [hov] at h; exact Option.noConfusion h
      | some ov =>
        simp only [hov] at h
        cases hov' : fix_options ov with
        | none => simp only [hov'] at h; exact Option.noConfusion h
        | some ov' =>
          simp only [hov'] at h
          cases hcv : lookupKey q "category" with
          | none =>
            simp only [hcv, Option.some.injEq] at h
            exact ⟨tv, tv', ov, ov', rfl, htv', rfl, hov', Or.inl ⟨rfl, h.symm⟩⟩
          | some cv =>
            simp only [hcv] at h
            cases hcv' : reverseVal cv with
            | none => simp only [hcv'] at h; exact Option.noConfusion h
            | some cv' =>
              simp only [hcv', Option.some.injEq] at h
              exact ⟨tv, tv', ov, ov', rfl, htv', rfl, hov',
                Or.inr ⟨cv, cv', rfl, hcv', h.symm⟩⟩

/-- `fix_question` leaves every key other than `text`, `options`,
`category` bound to its original value. -/
theorem fix_question_lookup_other {q q' : Record} {k : String}
    (h : fix_question q = some q')
    (h1 : k ≠ "text") (h2 : k ≠ "options") (h3 : k ≠ "category") :
    lookupKey q' k = lookupKey q k := by
  obtain ⟨tv, tv', ov, ov', _, _, _, _, hq'⟩ := fix_question_inv h
  rcases hq' with ⟨_, rfl⟩ | ⟨cv, cv', _, _, rfl⟩
  · rw [lookupKey_setKey_ne _ _ h2, lookupKey_setKey_ne _ _ h1]
  · rw [lookupKey_setKey_ne _ _ h3, lookupKey_setKey_ne _ _ h2,
      lookupKey_setKey_ne _ _ h1]

/-- `fix_question` binds `text` to the reversal of the input text. -/
theorem fix_question_text {q q' : Record} {t : Str}
    (h : fix_question q = some q')
    (htext : lookupKey q "text" = some (Val.vstr t)) :
    lookupKey q' "text" = some (Val.vstr t.reverse) := by
  obtain ⟨tv, tv', ov, ov', htv, htv', _, _, hq'⟩ := fix_question_inv h
  rw [htext] at htv
  cases htv
  simp only [reverseVal, Option.some.injEq] at htv'
  rcases hq' with ⟨_, rfl⟩ | ⟨cv, cv', _, _, rfl⟩
  · rw [lookupKey_setKey_ne _ _ (by decide : ("text" : String) ≠ "options"),
      lookupKey_setKey_self, htv']
  · rw [lookupKey_setKey_ne _ _ (by decide : ("text" : String) ≠ "category"),
      lookupKey_setKey_ne _ _ (by decide : ("text" : String) ≠ "options"),
      lookupKey_setKey_self, htv']

/-! Lemmas about the driver loop. -/

/-- Positional description of a successful run: the output has one record
per input record, and each position holds the untouched record (classifier
said `False`) or its fixed copy (classifier said `True`). -/
theorem run_questions_spec {qs out : List Record} {n : Nat} {ids : List Val}
    (h : run_questions qs = some (out, n, ids)) :
    out.length = qs.length ∧
    ∀ (i : Nat) (q : Record), qs[i]? = some q →
      (classifyText q = some false ∧ out[i]? = some q) ∨
      (classifyText q = some true ∧
        ∃ r, fix_question q = some r ∧ out[i]? = some r) := by
  induction qs generalizing out n ids with
  | nil =>
    simp only [run_questions, Option.some.injEq, Prod.mk.injEq] at h
    obtain ⟨h1, h2, h3⟩ := h
    subst h1
    exact ⟨rfl, fun i q hq => by simp at hq⟩
  | cons a rest ih =>
    simp only [run_questions] at h
    cases hc : classifyText a with
    | none => simp only [hc] at h; exact Option.noConfusion h
    | some b =>
      simp only [hc] at h
      cases b with
      | false =>
        cases hrun : run_questions rest with
        | none => simp only [hrun] at h; exact Option.noConfusion h
        | some t3 =>
          obtain ⟨out1, n1, ids1⟩ := t3
          simp only [hrun, Option.some.injEq, Prod.mk.injEq] at h
          obtain ⟨hout, hn, hids⟩ := h
          subst hout
          obtain ⟨ihlen, ihpos⟩ := ih hrun
          refine ⟨by simp [ihlen], ?_⟩
          intro i q hq
          cases i with
          | zero =>
            simp only [List.getElem?_cons_zero, Option.some.injEq] at hq
            subst hq
            exact Or.inl ⟨hc, by simp⟩
          | succ j =>
            simp only [List.getElem?_cons_succ] at hq ⊢
            exact ihpos j q hq
      | true =>
        cases hf : fix_question a with
        | none => simp only [hf] at h; exact Option.noConfusion h
        | some fq =>
          simp only [hf] at h
          cases hid : lookupKey a "id" with
          | none => simp only [hid] at h; exact Option.noConfusion h
          | some idv =>
            simp only [hid] at h
            cases hrun : run_questions rest with
            | none => simp only [hrun] at h; exact Option.noConfusion h
            | some t3 =>
              obtain ⟨out1, n1, ids1⟩ := t3
              simp only [hrun, Option.some.injEq, Prod.mk.injEq] at h
              obtain ⟨hout, hn, hids⟩ := h
              subst hout
              obtain ⟨ihlen, ihpos⟩ := ih hrun
              refine ⟨by simp [ihlen], ?_⟩
              intro i q hq
              cases i with
              | zero =>
                simp only [List.getElem?_cons_zero, Option.some.injEq] at hq
                subst hq
                exact Or.inr ⟨hc, fq, hf, by simp⟩
              | succ j =>
                simp only [List.getElem?_cons_succ] at hq ⊢
                exact ihpos j q hq

/-- If some record of the collection is flagged by the classifier and then
either `fix_question` or the `q['id']` lookup fails on it, the whole run
aborts. -/
theorem run_questions_none_of_flagged {qs : List Record} {q : Record}
    (hq : q ∈ qs) (hc : classifyText q = some true)
    (habort : fix_question q = none ∨ lookupKey q "id" = none) :
    run_questions qs = none := by
  induction qs with
  | nil => simp at hq
  | cons a rest ih =>
    rcases List.mem_cons.mp hq with rfl | hmem
    · rcases habort with hf | hid
      · simp [run_questions, hc, hf]
      · cases hfx : fix_question q with
        | none => simp [run_questions, hc, hfx]
        | some fq => simp [run_questions, hc, hfx, hid]
    · cases hca : classifyText a with
      | none => simp [run_questions, hca]
      | some b =>
        cases b with
        | false => simp [run_questions, hca, ih hmem]
        | true =>
          cases hfa : fix_question a with
          | none => simp [run_questions, hca, hfa]
          | some fq =>
            cases hida : lookupKey a "id" with
            | none => simp [run_questions, hca, hfa, hida]
            | some idv => simp [run_questions, hca, hfa, hida, ih hmem]

/-- A record with no `text` field is classified on the driver's
empty-string default, hence as not reversed. -/
theorem classifyText_of_no_text {q : Record} (h : lookupKey q "text" = none) :
    classifyText q = some false := by
  simp [classifyText, h, is_reversed_hebrew]

/-! The claims. -/

/-- C1: for every string containing at least one known-correct marker and
at least one known-reversed marker (or matching the trailing
reversed-"during" pattern), `is_reversed_hebrew` returns `false`: the
correct-pattern check runs first and short-circuits the reversed-pattern
checks. -/
theorem C1_correct_pattern_precedence (text : Str)
    (hc : ∃ p ∈ correct_patterns, p <:+: text)
    (hr : (∃ p ∈ reversed_patterns, p <:+: text) ∨
      trailing_during (pyStrip text) = true) :
    is_reversed_hebrew text = false := by
  obtain ⟨p, hmem, hinf⟩ := hc
  exact is_reversed_of_correct hmem hinf

/-- Witness for C1 on a concrete text containing the correct marker
`'מה '` and the reversed marker `' המ '`. -/
theorem C1_witness :
    (∃ p ∈ correct_patterns, p <:+: bothMarkersText) ∧
    ((∃ p ∈ reversed_patterns, p <:+: bothMarkersText) ∨
      trailing_during (pyStrip bothMarkersText) = true) ∧
    is_reversed_hebrew bothMarkersText = false :=
  ⟨by decide, Or.inl (by decide),
    C1_correct_pattern_precedence bothMarkersText (by decide) (Or.inl (by decide))⟩

/-- C2 counterexample: the palindromic text `",המ  מה,"` contains the
reversed marker `',המ '` and no correct marker, so it is classified
reversed; it equals its own reversal, so the text of the fixed record is
classified reversed again, contradicting the claim that fixing resolves
the classification. -/
theorem C2_counterexample :
    is_reversed_hebrew palinText = true ∧
    (∃ q', fix_question palinRec = some q' ∧
      lookupKey q' "text" = some (Val.vstr (reverse_hebrew palinText))) ∧
    is_reversed_hebrew (reverse_hebrew palinText) = true :=
  ⟨by decide,
    ⟨[("text", Val.vstr (reverse_hebrew palinText)), ("options", Val.vlist [])],
      rfl, rfl⟩,
    by decide⟩

/-- C2 (amended): for every record whose string `text` contains one of the
five reversed question-word markers `' המ '`, `' המ,'`, `' ימ '`,
`' ךיא '`, `' םאה '` — the reversed markers whose own reversal contains a
correct marker — if the record is classified reversed and `fix_question`
succeeds, the fixed record's text is classified not reversed. -/
theorem C2_fix_resolves_mirror {q q' : Record} {t : Str}
    (htext : lookupKey q "text" = some (Val.vstr t))
    (hm : ∃ p ∈ mirror_markers, p <:+: t)
    (hrev : is_reversed_hebrew t = true)
    (hfix : fix_question q = some q') :
    ∃ t', lookupKey q' "text" = some (Val.vstr t') ∧
      is_reversed_hebrew t' = false := by
  obtain ⟨p, hp, hinf⟩ := hm
  refine ⟨t.reverse, fix_question_text hfix htext, ?_⟩
  obtain ⟨c, hc, hcp⟩ := mirror_markers_reverse_correct hp
  exact is_reversed_of_correct hc (hcp.trans (List.reverse_infix.mpr hinf))

/-- Witness for the amended C2 on scenario record 1. -/
theorem C2_witness :
    lookupKey scenRec1 "text" = some (Val.vstr scenText1) ∧
    (∃ p ∈ mirror_markers, p <:+: scenText1) ∧
    is_reversed_hebrew scenText1 = true ∧
    fix_question scenRec1 = some scenRec1Fixed ∧
    (∃ t', lookupKey scenRec1Fixed "text" = some (Val.vstr t') ∧
      is_reversed_hebrew t' = false) :=
  ⟨rfl, by decide, by decide, rfl,
    @C2_fix_resolves_mirror scenRec1 scenRec1Fixed scenText1 rfl (by decide)
      (by decide) rfl⟩

/-- C3 counterexample: on the literal two-record input of the claim (each
record has only `id` and `text`), record 1 is classified reversed, but
`fix_question` then fails on the missing `options` field and the whole run
aborts, so no output collection, count or id list is produced. -/
theorem C3_counterexample :
    classifyText litRec1 = some true ∧
    fix_question litRec1 = none ∧
    run_questions [litRec1, litRec2] = none :=
  ⟨by decide, rfl, rfl⟩

/-- C3 (amended): on the spec's two-record scenario with each record also
carrying an `options` field (here the empty list), record 1 is classified
reversed and record 2 is not; the run fixes record 1 only, leaves record 2
unchanged, counts 1 fixed out of 2, prints
`"Fixed 1 questions out of 2"`, and reports the fixed-ids list `[1]`. -/
theorem C3_scenario :
    is_reversed_hebrew scenText1 = true ∧
    is_reversed_hebrew scenText2 = false ∧
    run_questions [scenRec1, scenRec2] =
      some ([scenRec1Fixed, scenRec2], 1, [Val.vnum 1]) ∧
    summary_line 1 2 = "Fixed 1 questions out of 2" :=
  ⟨by decide, by decide, rfl, rfl⟩

/-- C4: `is_reversed_hebrew` is a total Boolean function with a
conservative default: it returns `false` on the empty string, and on every
string containing no correct marker and no reversed marker whose stripped
form does not match the trailing reversed-"during" pattern. -/
theorem C4_conservative_default :
    is_reversed_hebrew [] = false ∧
    ∀ text : Str,
      (∀ p ∈ correct_patterns, ¬p <:+: text) →
      (∀ p ∈ reversed_patterns, ¬p <:+: text) →
      trailing_during (pyStrip text) = false →
      is_reversed_hebrew text = false := by
  refine ⟨rfl, ?_⟩
  intro text hnc hnr htr
  have h1 : correct_patterns.any (fun p => containsSub p text) = false := by
    rw [List.any_eq_false]
    intro p hp
    simpa [containsSub] using hnc p hp
  have h2 : reversed_patterns.any (fun p => containsSub p text) = false := by
    rw [List.any_eq_false]
    intro p hp
    simpa [containsSub] using hnr p hp
  simp [is_reversed_hebrew, h1, h2, htr]

/-- Witness for C4 on a concrete marker-free text. -/
theorem C4_witness :
    (∀ p ∈ correct_patterns, ¬p <:+: latinText) ∧
    (∀ p ∈ reversed_patterns, ¬p <:+: latinText) ∧
    trailing_during (pyStrip latinText) = false ∧
    is_reversed_hebrew latinText = false :=
  ⟨by decide, by decide, by decide,
    C4_conservative_default.2 latinText (by decide) (by decide) (by decide)⟩

/-- C5: for every string with no correct marker and no plain reversed
marker, if its stripped form ends with `'תעב'` optionally followed by
exactly one of `?`, `.`, `!`, then `is_reversed_hebrew` returns `true`:
the suffix-anchored rule alone suffices. -/
theorem C5_trailing_rule (text : Str)
    (hnc : ∀ p ∈ correct_patterns, ¬p <:+: text)
    (hnr : ∀ p ∈ reversed_patterns, ¬p <:+: text)
    (htr : during_reversed <:+ pyStrip text ∨
      during_reversed ++ ['?'] <:+ pyStrip text ∨
      during_reversed ++ ['.'] <:+ pyStrip text ∨
      during_reversed ++ ['!'] <:+ pyStrip text) :
    is_reversed_hebrew text = true := by
  have htrail : trailing_during (pyStrip text) = true := by
    rcases htr with h | h | h | h <;> simp [trailing_during, h]
  have hstrip : pyStrip text ≠ [] := by
    intro h0
    rcases htr with h | h | h | h <;> rw [h0] at h <;>
      obtain ⟨s, hs⟩ := h <;> simp [during_reversed] at hs
  have htext0 : text.isEmpty = false := by
    cases text with
    | nil => exact absurd rfl hstrip
    | cons a l => rfl
  have h1 : correct_patterns.any (fun p => containsSub p text) = false := by
    rw [List.any_eq_false]
    intro p hp
    simpa [containsSub] using hnc p hp
  have h2 : reversed_patterns.any (fun p => containsSub p text) = false := by
    rw [List.any_eq_false]
    intro p hp
    simpa [containsSub] using hnr p hp
  simp [is_reversed_hebrew, htext0, h1, h2, htrail]

/-- Witness for C5 on a concrete text ending in `'תעב?'`. -/
theorem C5_witness :
    (∀ p ∈ correct_patterns, ¬p <:+: duringText) ∧
    (∀ p ∈ reversed_patterns, ¬p <:+: duringText) ∧
    during_reversed ++ ['?'] <:+ pyStrip duringText ∧
    is_reversed_hebrew duringText = true :=
  ⟨by decide, by decide, by decide,
    C5_trailing_rule duringText (by decide) (by decide)
      (Or.inr (Or.inl (by decide)))⟩

/-- C6: a successful `fix_question` preserves the record's key sequence
(order included), leaves every key other than `text`, `options`,
`category` bound to its original value, and has `category` in the output
exactly when the input had it. -/
theorem C6_field_scoping {q q' : Record} (hfix : fix_question q = some q') :
    q'.map Prod.fst = q.map Prod.fst ∧
    (∀ k, k ≠ "text" → k ≠ "options" → k ≠ "category" →
      lookupKey q' k = lookupKey q k) ∧
    ((lookupKey q' "category").isSome ↔ (lookupKey q "category").isSome) := by
  obtain ⟨tv, tv', ov, ov', htv, htv', hov, hov', hq'⟩ := fix_question_inv hfix
  have htk : "text" ∈ q.map Prod.fst := mem_keys_of_lookupKey htv
  have hok : "options" ∈ q.map Prod.fst := mem_keys_of_lookupKey hov
  have e1 : (setKey q "text" tv').map Prod.fst = q.map Prod.fst :=
    keys_setKey_of_mem tv' htk
  have e2 : (setKey (setKey q "text" tv') "options" ov').map Prod.fst =
      q.map Prod.fst := by
    rw [keys_setKey_of_mem ov' (e1 ▸ hok), e1]
  rcases hq' with ⟨hcat, rfl⟩ | ⟨cv, cv', hcv, hcv', rfl⟩
  · refine ⟨e2, fun k h1 h2 h3 => fix_question_lookup_other hfix h1 h2 h3, ?_⟩
    rw [lookupKey_setKey_ne _ _ (by decide : ("category" : String) ≠ "options"),
      lookupKey_setKey_ne _ _ (by decide : ("category" : String) ≠ "text")]
  · have hck : "category" ∈ q.map Prod.fst := mem_keys_of_lookupKey hcv
    refine ⟨?_, fun k h1 h2 h3 => fix_question_lookup_other hfix h1 h2 h3, ?_⟩
    · rw [keys_setKey_of_mem cv' (e2 ▸ hck), e2]
    · rw [lookupKey_setKey_self, hcv]
      simp

/-- Witness for C6 on a record with an unrelated key and a category. -/
theorem C6_witness :
    fix_question framedRec = some framedRecFixed ∧
    framedRecFixed.map Prod.fst = framedRec.map Prod.fst ∧
    lookupKey framedRecFixed "note" = lookupKey framedRec "note" ∧
    ((lookupKey framedRecFixed "category").isSome ↔
      (lookupKey framedRec "category").isSome) := by
  have h := @C6_field_scoping framedRec framedRecFixed rfl
  exact ⟨rfl, h.1, h.2.1 "note" (by decide) (by decide) (by decide), h.2.2⟩

/-- C7: a successful run yields exactly one output record per input
record, and the record at each position — the original or its fixed copy,
never a reordering — has the same `id` binding as the input record at that
position. -/
theorem C7_order_and_ids {qs out : List Record} {n : Nat} {ids : List Val}
    (h : run_questions qs = some (out, n, ids)) :
    out.length = qs.length ∧
    ∀ (i : Nat) (q : Record), qs[i]? = some q →
      ∃ r, out[i]? = some r ∧ lookupKey r "id" = lookupKey q "id" ∧
        (r = q ∨ fix_question q = some r) := by
  obtain ⟨hlen, hpos⟩ := run_questions_spec h
  refine ⟨hlen, ?_⟩
  intro i q hq
  rcases hpos i q hq with ⟨_, hout⟩ | ⟨_, r, hfr, hout⟩
  · exact ⟨q, hout, rfl, Or.inl rfl⟩
  · exact ⟨r, hout,
      fix_question_lookup_other hfr (by decide) (by decide) (by decide),
      Or.inr hfr⟩

/-- Witness for C7 on the two-record scenario run. -/
theorem C7_witness :
    run_questions [scenRec1, scenRec2] =
      some ([scenRec1Fixed, scenRec2], 1, [Val.vnum 1]) ∧
    (([scenRec1Fixed, scenRec2] : List Record).length =
        ([scenRec1, scenRec2] : List Record).length ∧
      ∀ (i : Nat) (q : Record), ([scenRec1, scenRec2] : List Record)[i]? = some q →
        ∃ r, ([scenRec1Fixed, scenRec2] : List Record)[i]? = some r ∧
          lookupKey r "id" = lookupKey q "id" ∧
          (r = q ∨ fix_question q = some r)) :=
  ⟨rfl, @C7_order_and_ids [scenRec1, scenRec2] [scenRec1Fixed, scenRec2] 1
    [Val.vnum 1] rfl⟩

/-- C8: `fix_question` fails on a record lacking `text` or lacking
`options`, and in the driver this failure on a record classified as
reversed aborts the whole run: no output collection is produced. -/
theorem C8_missing_field_aborts {q : Record}
    (hmiss : lookupKey q "text" = none ∨ lookupKey q "options" = none) :
    fix_question q = none ∧
    ∀ qs, q ∈ qs → classifyText q = some true → run_questions qs = none := by
  have hfz : fix_question q = none := by
    rcases hmiss with h | h
    · simp [fix_question, h]
    · cases htv : lookupKey q "text" with
      | none => simp [fix_question, htv]
      | some tv =>
        cases htv' : reverseVal tv with
        | none => simp [fix_question, htv, htv']
        | some tv' => simp [fix_question, htv, htv', h]
  exact ⟨hfz, fun qs hq hc => run_questions_none_of_flagged hq hc (Or.inl hfz)⟩

/-- Witness for C8 on a flagged record lacking `options`. -/
theorem C8_witness :
    lookupKey noOptionsRec "options" = none ∧
    fix_question noOptionsRec = none ∧
    run_questions [noOptionsRec] = none := by
  have h := @C8_missing_field_aborts noOptionsRec (Or.inr rfl)
  exact ⟨rfl, h.1, h.2 [noOptionsRec] (by simp) (by decide)⟩

/-- C9: a record with no `text` field is never classified as reversed (the
driver classifies the empty-string default), so it passes through to the
output unchanged at its position, and the missing-`text` failure branch of
`fix_question` is unreachable from the driver. -/
theorem C9_missing_text_passthrough :
    (∀ q : Record, lookupKey q "text" = none → classifyText q = some false) ∧
    (∀ (qs out : List Record) (n : Nat) (ids : List Val) (i : Nat) (q : Record),
      run_questions qs = some (out, n, ids) → qs[i]? = some q →
      lookupKey q "text" = none → out[i]? = some q) := by
  refine ⟨fun q h => classifyText_of_no_text h, ?_⟩
  intro qs out n ids i q hrun hq htext
  rcases (run_questions_spec hrun).2 i q hq with ⟨_, hout⟩ | ⟨hc, _⟩
  · exact hout
  · simp [classifyText_of_no_text htext] at hc

/-- Witness for C9 on a record with no `text` field. -/
theorem C9_witness :
    lookupKey noTextRec "text" = none ∧
    classifyText noTextRec = some false ∧
    run_questions [noTextRec] = some ([noTextRec], 0, []) ∧
    ([noTextRec] : List Record)[0]? = some noTextRec :=
  ⟨rfl, C9_missing_text_passthrough.1 noTextRec rfl, rfl,
    C9_missing_text_passthrough.2 [noTextRec] [noTextRec] 0 [] 0 noTextRec
      rfl rfl rfl⟩

/-- C10: the driver reads `q['id']` unconditionally for every record it
classifies as reversed, so a flagged record lacking `id` — even one with
valid `text` and `options` — aborts the whole run. -/
theorem C10_missing_id_aborts {qs : List Record} {q : Record}
    (hq : q ∈ qs) (hc : classifyText q = some true)
    (hid : lookupKey q "id" = none) :
    run_questions qs = none :=
  run_questions_none_of_flagged hq hc (Or.inr hid)

/-- Witness for C10 on a flagged record with valid `text` and `options`
but no `id`. -/
theorem C10_witness :
    classifyText palinRec = some true ∧
    lookupKey palinRec "id" = none ∧
    (∃ fq, fix_question palinRec = some fq) ∧
    run_questions [palinRec] = none :=
  ⟨by decide, rfl,
    ⟨[("text", Val.vstr (reverse_hebrew palinText)), ("options", Val.vlist [])], rfl⟩,
    @C10_missing_id_aborts [palinRec] palinRec (by simp) (by decide) rfl⟩

end FixHebrew
